import Mathlib

/-!
Verification of the signal-to-event proctoring pipeline
(`app/services/proctoring_processing/detection_service.py` and
`app/services/proctoring_processing/video_processing_service.py`).

Python floats are modelled as rational numbers; Python's builtin `round`
(banker's rounding, round-half-to-even) is modelled by `pyRound`.
-/

/-- Python's `round` to an integer: round half to even. -/
def pyRoundInt (q : ℚ) : ℤ :=
  let f := ⌊q⌋
  let r := q - (f : ℚ)
  if r < 1/2 then f
  else if 1/2 < r then f + 1
  else if f % 2 = 0 then f else f + 1

/-- Python's `round(q, n)`: round to `n` decimal places, half to even. -/
def pyRound (q : ℚ) (n : ℕ) : ℚ :=
  (pyRoundInt (q * 10 ^ n) : ℚ) / 10 ^ n

/-- The closed set of 10 violation categories tracked by `ViolationTracker`
(keys of `ViolationTracker.counts`, in source dictionary order). -/
inductive ViolationCategory where
  | gaze_left | gaze_right | gaze_up | gaze_down
  | head_left | head_right | head_up | head_down
  | face_missing | multiple_faces
  deriving DecidableEq, Repr

namespace ViolationCategory

/-- The categories in the insertion order of the `counts` dictionary. -/
def all : List ViolationCategory :=
  [gaze_left, gaze_right, gaze_up, gaze_down,
   head_left, head_right, head_up, head_down,
   face_missing, multiple_faces]

end ViolationCategory

/-- Per-category state record held in `ViolationTracker.active_violations`. -/
structure ViolState where
  active : Bool
  start_time : ℚ
  duration : ℚ
  max_intensity : ℚ
  deriving DecidableEq, Repr

/-- An entry of `ViolationTracker.violation_events` (a `ViolationEvent`). -/
structure VEvent where
  vtype : ViolationCategory
  timestamp : ℚ
  duration : ℚ
  intensity : ℚ
  deriving DecidableEq, Repr

/-- The fixed thresholds dictionary (degree values); roll has no threshold. -/
structure Thresholds where
  eye_horizontal : ℚ
  eye_vertical : ℚ
  yaw : ℚ
  pitch : ℚ
  deriving DecidableEq, Repr

/-- The per-frame measurements handed to `ViolationTracker.update`:
optional axis angles (absent when the detector produced no reading)
and the face count. -/
structure FrameInput where
  gaze_h : Option ℚ
  gaze_v : Option ℚ
  yaw : Option ℚ
  pitch : Option ℚ
  num_faces : ℕ
  deriving DecidableEq, Repr

/-- State of a `ViolationTracker` instance. -/
structure ViolationTracker where
  counts : ViolationCategory → ℕ
  timestamps : ViolationCategory → List ℚ
  states : ViolationCategory → ViolState
  max_intensities : ViolationCategory → ℚ
  events : List VEvent

/-- Pointwise update of a per-category map (Python dict assignment). -/
def setCat {α : Type} (f : ViolationCategory → α) (c : ViolationCategory) (v : α) :
    ViolationCategory → α :=
  fun c' => if c' = c then v else f c'

namespace ViolationTracker

/-- `ViolationTracker.__init__`. -/
def init : ViolationTracker :=
  { counts := fun _ => 0
    timestamps := fun _ => []
    states := fun _ => ⟨false, 0, 0, 0⟩
    max_intensities := fun _ => 0
    events := [] }

/-- `ViolationTracker._start_violation`. -/
def startViolation (t : ViolationTracker) (c : ViolationCategory) (ts i : ℚ) :
    ViolationTracker :=
  { t with states := setCat t.states c ⟨true, ts, 0, i⟩ }

/-- `ViolationTracker._update_violation`. -/
def updateViolation (t : ViolationTracker) (c : ViolationCategory) (ts i : ℚ) :
    ViolationTracker :=
  let s := t.states c
  let s' : ViolState := ⟨s.active, s.start_time, ts - s.start_time, max s.max_intensity i⟩
  { t with
      states := setCat t.states c s'
      max_intensities := setCat t.max_intensities c (max (t.max_intensities c) s'.max_intensity) }

/-- The event dict appended by `_end_violation` for state `s` of category `c`:
start timestamp, duration rounded to 1 decimal, and the raw running maximum
intensity. -/
def mkEvent (c : ViolationCategory) (s : ViolState) : VEvent :=
  ⟨c, s.start_time, pyRound s.duration 1, s.max_intensity⟩

/-- `ViolationTracker._end_violation`: record the event when the span is
active and lasted at least 0.15 s, then clear the `active` flag (all other
state fields are left in place). -/
def endViolation (t : ViolationTracker) (c : ViolationCategory) : ViolationTracker :=
  let s := t.states c
  let t' :=
    if s.active ∧ (3/20 : ℚ) ≤ s.duration then
      { t with
          counts := setCat t.counts c (t.counts c + 1)
          timestamps := setCat t.timestamps c (t.timestamps c ++ [pyRound s.start_time 2])
          events := t.events ++ [mkEvent c s] }
    else t
  { t' with states := setCat t'.states c ⟨false, s.start_time, s.duration, s.max_intensity⟩ }

/-- `ViolationTracker._check_and_update_violation`. -/
def checkAndUpdate (t : ViolationTracker) (c : ViolationCategory) (cond : Bool)
    (ts i : ℚ) : ViolationTracker :=
  let isActive := (t.states c).active
  if cond then
    if !isActive then t.startViolation c ts i else t.updateViolation c ts i
  else
    if isActive then t.endViolation c else t

/-- `ViolationTracker.update`: the ten `_check_and_update_violation` calls
with their inline conditions and intensities, in source order. -/
def update (t : ViolationTracker) (ts : ℚ) (inp : FrameInput) (th : Thresholds) :
    ViolationTracker :=
  let t1 := t.checkAndUpdate .gaze_left
    (match inp.gaze_h with | some g => decide (g < -th.eye_horizontal) | none => false)
    ts (match inp.gaze_h with | some g => |g| | none => 0)
  let t2 := t1.checkAndUpdate .gaze_right
    (match inp.gaze_h with | some g => decide (g > th.eye_horizontal) | none => false)
    ts (match inp.gaze_h with | some g => |g| | none => 0)
  let t3 := t2.checkAndUpdate .gaze_up
    (match inp.gaze_v with | some g => decide (g < -th.eye_vertical) | none => false)
    ts (match inp.gaze_v with | some g => |g| | none => 0)
  let t4 := t3.checkAndUpdate .gaze_down
    (match inp.gaze_v with | some g => decide (g > th.eye_vertical) | none => false)
    ts (match inp.gaze_v with | some g => |g| | none => 0)
  let t5 := t4.checkAndUpdate .head_left
    (match inp.yaw with | some y => decide (y < -th.yaw) | none => false)
    ts (match inp.yaw with | some y => |y| | none => 0)
  let t6 := t5.checkAndUpdate .head_right
    (match inp.yaw with | some y => decide (y > th.yaw) | none => false)
    ts (match inp.yaw with | some y => |y| | none => 0)
  let t7 := t6.checkAndUpdate .head_up
    (match inp.pitch with | some p => decide (p < -th.pitch) | none => false)
    ts (match inp.pitch with | some p => |p| | none => 0)
  let t8 := t7.checkAndUpdate .head_down
    (match inp.pitch with | some p => decide (p > th.pitch) | none => false)
    ts (match inp.pitch with | some p => |p| | none => 0)
  let t9 := t8.checkAndUpdate .face_missing (decide (inp.num_faces = 0)) ts 0
  t9.checkAndUpdate .multiple_faces (decide (inp.num_faces > 1)) ts 0

/-- Loop body of `ViolationTracker.finalize`: end one category if active. -/
def finStep (t : ViolationTracker) (c : ViolationCategory) : ViolationTracker :=
  if (t.states c).active then t.endViolation c else t

/-- `ViolationTracker.finalize`: force-end every still-active category,
iterating in dictionary order. -/
def finalize (t : ViolationTracker) : ViolationTracker :=
  ViolationCategory.all.foldl finStep t

end ViolationTracker

/-- The spec's per-category condition table (§4.3 of the specification). -/
def condFor (c : ViolationCategory) (inp : FrameInput) (th : Thresholds) : Bool :=
  match c with
  | .gaze_left => match inp.gaze_h with | some g => decide (g < -th.eye_horizontal) | none => false
  | .gaze_right => match inp.gaze_h with | some g => decide (g > th.eye_horizontal) | none => false
  | .gaze_up => match inp.gaze_v with | some g => decide (g < -th.eye_vertical) | none => false
  | .gaze_down => match inp.gaze_v with | some g => decide (g > th.eye_vertical) | none => false
  | .head_left => match inp.yaw with | some y => decide (y < -th.yaw) | none => false
  | .head_right => match inp.yaw with | some y => decide (y > th.yaw) | none => false
  | .head_up => match inp.pitch with | some p => decide (p < -th.pitch) | none => false
  | .head_down => match inp.pitch with | some p => decide (p > th.pitch) | none => false
  | .face_missing => decide (inp.num_faces = 0)
  | .multiple_faces => decide (inp.num_faces > 1)

/-- The spec's intensity rule: absolute axis value for the eight angle-based
categories (0 when the axis is absent), 0 for the two presence categories. -/
def intensityFor (c : ViolationCategory) (inp : FrameInput) : ℚ :=
  match c with
  | .gaze_left | .gaze_right => match inp.gaze_h with | some g => |g| | none => 0
  | .gaze_up | .gaze_down => match inp.gaze_v with | some g => |g| | none => 0
  | .head_left | .head_right => match inp.yaw with | some y => |y| | none => 0
  | .head_up | .head_down => match inp.pitch with | some p => |p| | none => 0
  | .face_missing | .multiple_faces => 0

/-- The spec's single-category state transition (§4.3): start on a rising
condition, extend while the condition holds, clear `active` on a falling
condition, leave an inactive state alone. -/
def specStep (s : ViolState) (cond : Bool) (ts i : ℚ) : ViolState :=
  if cond then
    if s.active then ⟨true, s.start_time, ts - s.start_time, max s.max_intensity i⟩
    else ⟨true, ts, 0, i⟩
  else
    if s.active then ⟨false, s.start_time, s.duration, s.max_intensity⟩
    else s

section TrackerLemmas

open ViolationTracker

@[simp] lemma setCat_same {α : Type} (f : ViolationCategory → α) (c : ViolationCategory)
    (v : α) : setCat f c v c = v := by
  simp [setCat]

lemma setCat_ne {α : Type} (f : ViolationCategory → α) {c c' : ViolationCategory}
    (v : α) (h : c' ≠ c) : setCat f c v c' = f c' := by
  simp [setCat, h]

lemma endViolation_states (t : ViolationTracker) (c : ViolationCategory) :
    (t.endViolation c).states =
      setCat t.states c ⟨false, (t.states c).start_time, (t.states c).duration,
        (t.states c).max_intensity⟩ := by
  unfold endViolation
  dsimp only
  split <;> rfl

lemma checkAndUpdate_states (t : ViolationTracker) (c c' : ViolationCategory)
    (cond : Bool) (ts i : ℚ) :
    (t.checkAndUpdate c cond ts i).states c' =
      if c' = c then specStep (t.states c) cond ts i else t.states c' := by
  rcases eq_or_ne c' c with rfl | hne
  · unfold checkAndUpdate specStep
    cases cond <;> rcases hA : (t.states c').active <;>
      simp [hA, startViolation, updateViolation, endViolation_states]
  · unfold checkAndUpdate
    cases cond <;> rcases hA : (t.states c).active <;>
      simp [hA, startViolation, updateViolation, endViolation_states, setCat_ne _ _ hne, hne]

/-- The violation events of category `c` recorded so far. -/
def eventsFor (t : ViolationTracker) (c : ViolationCategory) : List VEvent :=
  t.events.filter (fun e => decide (e.vtype = c))

lemma endViolation_events (t : ViolationTracker) (c : ViolationCategory) :
    (t.endViolation c).events =
      t.events ++
        (if (t.states c).active = true ∧ (3/20 : ℚ) ≤ (t.states c).duration
         then [mkEvent c (t.states c)] else []) := by
  unfold endViolation
  dsimp only
  split <;> simp_all

lemma checkAndUpdate_events (t : ViolationTracker) (c : ViolationCategory)
    (cond : Bool) (ts i : ℚ) :
    (t.checkAndUpdate c cond ts i).events =
      t.events ++
        (if (t.states c).active = true ∧ cond = false ∧ (3/20 : ℚ) ≤ (t.states c).duration
         then [mkEvent c (t.states c)] else []) := by
  unfold checkAndUpdate
  cases cond <;> rcases hA : (t.states c).active <;>
    simp [hA, startViolation, updateViolation, endViolation_events]

lemma eventsFor_checkAndUpdate (t : ViolationTracker) (c c' : ViolationCategory)
    (cond : Bool) (ts i : ℚ) :
    eventsFor (t.checkAndUpdate c cond ts i) c' =
      eventsFor t c' ++
        (if c' = c then
          (if (t.states c).active = true ∧ cond = false ∧ (3/20 : ℚ) ≤ (t.states c).duration
           then [mkEvent c (t.states c)] else [])
         else []) := by
  rw [eventsFor, checkAndUpdate_events, List.filter_append]
  have h1 : List.filter (fun e => decide (e.vtype = c')) t.events = eventsFor t c' := rfl
  rw [h1]
  congr 1
  rcases eq_or_ne c' c with rfl | hne
  · rw [if_pos rfl]
    split <;> simp [mkEvent]
  · rw [if_neg hne]
    split <;> simp [mkEvent, hne.symm]

lemma finStep_states (t : ViolationTracker) (c c' : ViolationCategory) :
    (t.finStep c).states c' =
      if c' = c then
        (if (t.states c).active = true
         then ⟨false, (t.states c).start_time, (t.states c).duration,
           (t.states c).max_intensity⟩
         else t.states c)
      else t.states c' := by
  unfold finStep
  rcases eq_or_ne c' c with rfl | hne
  · rcases hA : (t.states c').active <;> simp [hA, endViolation_states]
  · rcases hA : (t.states c).active <;>
      simp [hA, endViolation_states, setCat_ne _ _ hne, hne]

lemma eventsFor_finStep (t : ViolationTracker) (c c' : ViolationCategory) :
    eventsFor (t.finStep c) c' =
      eventsFor t c' ++
        (if c' = c then
          (if (t.states c).active = true ∧ (3/20 : ℚ) ≤ (t.states c).duration
           then [mkEvent c (t.states c)] else [])
         else []) := by
  unfold finStep
  by_cases hA : (t.states c).active = true
  case neg => simp [hA]
  rw [if_pos hA, eventsFor, endViolation_events, List.filter_append]
  have h1 : List.filter (fun e => decide (e.vtype = c')) t.events = eventsFor t c' := rfl
  rw [h1]
  congr 1
  rcases eq_or_ne c' c with rfl | hne
  · rw [if_pos rfl]
    split <;> simp [mkEvent]
  · rw [if_neg hne]
    split <;> simp [mkEvent, hne.symm]

/-- Per-category state after a full `update` call: exactly the spec's
transition driven by the spec's condition table and intensity rule. -/
lemma update_states_eq (t : ViolationTracker) (ts : ℚ) (inp : FrameInput)
    (th : Thresholds) (c : ViolationCategory) :
    (t.update ts inp th).states c =
      specStep (t.states c) (condFor c inp th) ts (intensityFor c inp) := by
  cases c <;>
    simp [ViolationTracker.update, checkAndUpdate_states, condFor, intensityFor]

/-- Category-`c` events after a full `update` call: unchanged unless `c` was
active and its condition just turned false with an accumulated duration of at
least 0.15 s, in which case exactly one new event is appended. -/
lemma update_eventsFor_eq (t : ViolationTracker) (ts : ℚ) (inp : FrameInput)
    (th : Thresholds) (c : ViolationCategory) :
    eventsFor (t.update ts inp th) c =
      eventsFor t c ++
        (if (t.states c).active = true ∧ condFor c inp th = false ∧
            (3/20 : ℚ) ≤ (t.states c).duration
         then [mkEvent c (t.states c)] else []) := by
  cases c <;>
    simp [ViolationTracker.update, eventsFor_checkAndUpdate, checkAndUpdate_states,
      condFor]

/-- Category-`c` events after `finalize`: one event appended iff `c` is still
active with an accumulated duration of at least 0.15 s. -/
lemma finalize_eventsFor_eq (t : ViolationTracker) (c : ViolationCategory) :
    eventsFor t.finalize c =
      eventsFor t c ++
        (if (t.states c).active = true ∧ (3/20 : ℚ) ≤ (t.states c).duration
         then [mkEvent c (t.states c)] else []) := by
  cases c <;>
    simp [ViolationTracker.finalize, ViolationCategory.all, eventsFor_finStep,
      finStep_states]

end TrackerLemmas

/-- C2: on every call to `ViolationTracker.update`, each of the 10 categories
is evaluated independently of the others against its fixed condition from the
spec's table (`gaze_left`: `gaze_h < -eye_horizontal`, …, `face_missing`:
`num_faces == 0`, `multiple_faces`: `num_faces > 1`), and the intensity fed
into the start/update transition is `abs(axis value)` for the eight
angle-based categories and `0` for the two presence categories. -/
theorem update_evaluates_each_category_independently
    (t : ViolationTracker) (ts : ℚ) (inp : FrameInput) (th : Thresholds)
    (c : ViolationCategory) :
    (t.update ts inp th).states c =
      specStep (t.states c) (condFor c inp th) ts (intensityFor c inp) :=
  update_states_eq t ts inp th c

/-- C1: for every tracker state, category and frame (so along any frame
sequence), the recorded event list for a category grows by exactly one event
precisely when that category's active violation transitions back to inactive
(its condition turns false on this frame) with accumulated duration at least
0.15 s, and by exactly one event at `finalize()` when the category is still
active with duration at least 0.15 s; in every other case (in particular for
any span whose accumulated duration stayed below 0.15 s, such as one sustained
only 0.10 s) no event is created for that category. -/
theorem violation_event_created_once_at_deactivation
    (t : ViolationTracker) (ts : ℚ) (inp : FrameInput) (th : Thresholds)
    (c : ViolationCategory) :
    (eventsFor (t.update ts inp th) c =
      eventsFor t c ++
        (if (t.states c).active = true ∧ condFor c inp th = false ∧
            (3/20 : ℚ) ≤ (t.states c).duration
         then [ViolationTracker.mkEvent c (t.states c)] else []))
    ∧ (eventsFor t.finalize c =
      eventsFor t c ++
        (if (t.states c).active = true ∧ (3/20 : ℚ) ≤ (t.states c).duration
         then [ViolationTracker.mkEvent c (t.states c)] else [])) :=
  ⟨update_eventsFor_eq t ts inp th c, finalize_eventsFor_eq t c⟩

/-- The eight angle-based categories. -/
def angleCategories : List ViolationCategory :=
  [.gaze_left, .gaze_right, .gaze_up, .gaze_down,
   .head_left, .head_right, .head_up, .head_down]

/-- The axis measurement each angle-based category reads. -/
def axisOf (c : ViolationCategory) (inp : FrameInput) : Option ℚ :=
  match c with
  | .gaze_left | .gaze_right => inp.gaze_h
  | .gaze_up | .gaze_down => inp.gaze_v
  | .head_left | .head_right => inp.yaw
  | .head_up | .head_down => inp.pitch
  | .face_missing | .multiple_faces => none

/-- C3: for every frame and every angle-based category, an absent (`None`)
measurement makes the category's condition false; it never starts a new
violation and never extends an active one (an inactive state is left
untouched, an active one is forced through the end-violation transition),
so after the update the category is inactive. -/
theorem absent_measurement_condition_false
    (t : ViolationTracker) (ts : ℚ) (inp : FrameInput) (th : Thresholds)
    (c : ViolationCategory)
    (hmem : c ∈ angleCategories)
    (hnone : axisOf c inp = none) :
    condFor c inp th = false
    ∧ (t.update ts inp th).states c =
        (if (t.states c).active = true
         then ⟨false, (t.states c).start_time, (t.states c).duration,
           (t.states c).max_intensity⟩
         else t.states c)
    ∧ ((t.update ts inp th).states c).active = false := by
  have hcond : condFor c inp th = false := by
    fin_cases hmem <;> simp_all [condFor, axisOf]
  refine ⟨hcond, ?_, ?_⟩
  · rw [update_states_eq, hcond]
    rcases hA : (t.states c).active <;> simp [specStep, hA]
  · rw [update_states_eq, hcond]
    rcases hA : (t.states c).active <;> simp [specStep, hA]

theorem absent_measurement_condition_false_witness :
    (ViolationCategory.gaze_left ∈ angleCategories)
    ∧ axisOf ViolationCategory.gaze_left ⟨none, none, none, none, 1⟩ = none
    ∧ (((ViolationTracker.init.update 0 ⟨some (-10), none, none, none, 1⟩
          ⟨5, 5, 10, 10⟩).update 1 ⟨none, none, none, none, 1⟩
          ⟨5, 5, 10, 10⟩).states ViolationCategory.gaze_left).active = false :=
  ⟨by decide, rfl,
    (absent_measurement_condition_false
      (ViolationTracker.init.update 0 ⟨some (-10), none, none, none, 1⟩ ⟨5, 5, 10, 10⟩)
      1 ⟨none, none, none, none, 1⟩ ⟨5, 5, 10, 10⟩ ViolationCategory.gaze_left
      (by decide) rfl).2.2⟩

/-- C10: a violation whose condition holds at exactly one `update` call never
produces a `ViolationEvent`: the start transition initializes the duration to
0, so whether the condition turns false at the next call or the stream ends
there (`finalize`), the 0.15 s debounce discards the span. -/
theorem single_true_frame_produces_no_event
    (t : ViolationTracker) (ts ts' : ℚ) (inp inp' : FrameInput) (th th' : Thresholds)
    (c : ViolationCategory)
    (h1 : (t.states c).active = false)
    (h2 : condFor c inp th = true)
    (h3 : condFor c inp' th' = false) :
    ((t.update ts inp th).states c).duration = 0
    ∧ eventsFor ((t.update ts inp th).update ts' inp' th') c =
        eventsFor (t.update ts inp th) c
    ∧ eventsFor (t.update ts inp th).finalize c = eventsFor (t.update ts inp th) c := by
  have hs : (t.update ts inp th).states c = ⟨true, ts, 0, intensityFor c inp⟩ := by
    rw [update_states_eq, h2]
    simp [specStep, h1]
  refine ⟨by rw [hs], ?_, ?_⟩
  · rw [update_eventsFor_eq, hs]
    norm_num
  · rw [finalize_eventsFor_eq, hs]
    norm_num

theorem single_true_frame_produces_no_event_witness :
    ((ViolationTracker.init.states ViolationCategory.gaze_right).active = false)
    ∧ condFor ViolationCategory.gaze_right ⟨some 10, none, none, none, 1⟩
        ⟨5, 5, 10, 10⟩ = true
    ∧ condFor ViolationCategory.gaze_right ⟨some 0, none, none, none, 1⟩
        ⟨5, 5, 10, 10⟩ = false
    ∧ ((ViolationTracker.init.update 0 ⟨some 10, none, none, none, 1⟩
        ⟨5, 5, 10, 10⟩).states ViolationCategory.gaze_right).duration = 0
    ∧ eventsFor ((ViolationTracker.init.update 0 ⟨some 10, none, none, none, 1⟩
        ⟨5, 5, 10, 10⟩).finalize) ViolationCategory.gaze_right =
      eventsFor (ViolationTracker.init.update 0 ⟨some 10, none, none, none, 1⟩
        ⟨5, 5, 10, 10⟩) ViolationCategory.gaze_right :=
  ⟨rfl, by decide, by decide,
    (single_true_frame_produces_no_event ViolationTracker.init 0 1
      ⟨some 10, none, none, none, 1⟩ ⟨some 0, none, none, none, 1⟩
      ⟨5, 5, 10, 10⟩ ⟨5, 5, 10, 10⟩ ViolationCategory.gaze_right
      rfl (by decide) (by decide)).1,
    (single_true_frame_produces_no_event ViolationTracker.init 0 1
      ⟨some 10, none, none, none, 1⟩ ⟨some 0, none, none, none, 1⟩
      ⟨5, 5, 10, 10⟩ ⟨5, 5, 10, 10⟩ ViolationCategory.gaze_right
      rfl (by decide) (by decide)).2.2⟩

/-! ## Gaze smoothing (`DetectionService`) -/

/-- Append a sample to `gaze_history`, evicting the oldest entry when the
bounded capacity of 7 is exceeded (`detect_gaze`, history maintenance). -/
def pushHistory (hist : List (ℚ × ℚ)) (p : ℚ × ℚ) : List (ℚ × ℚ) :=
  let h := hist ++ [p]
  if h.length > 7 then h.drop 1 else h

/-- `np.average(xs, weights=ws)`: weighted mean. -/
def npAverage (ws xs : List ℚ) : ℚ :=
  (List.zipWith (fun w x => w * x) ws xs).sum / ws.sum

/-- The fixed recency weights applied to the last 5 history entries. -/
def gazeWeights : List ℚ := [1/10, 3/20, 1/5, 1/4, 3/10]

/-- The post-Kalman tail of `detect_gaze`: push the Kalman output onto the
rolling history, then if the history holds at least 5 samples replace the
output by the weighted average of the last 5 entries, and round both axes to
2 decimals.  Returns the rounded output pair and the new history. -/
def smoothTail (hist : List (ℚ × ℚ)) (kh kv : ℚ) : (ℚ × ℚ) × List (ℚ × ℚ) :=
  let hist' := pushHistory hist (kh, kv)
  let out :=
    if hist'.length ≥ 5 then
      let recent := hist'.drop (hist'.length - 5)
      (npAverage gazeWeights (recent.map Prod.fst),
       npAverage gazeWeights (recent.map Prod.snd))
    else (kh, kv)
  ((pyRound out.1 2, pyRound out.2 2), hist')

lemma npAverage_five (a b c d e : ℚ) :
    npAverage gazeWeights [a, b, c, d, e] =
      1/10 * a + 3/20 * b + 1/5 * c + 1/4 * d + 3/10 * e := by
  simp [npAverage, gazeWeights]
  ring

/-- C4: the Kalman result is appended to a rolling history of capacity 7 with
the oldest entry evicted on overflow; if the history then holds at least 5
samples the returned angle is the weighted average of the last 5 entries with
weights `[0.10, 0.15, 0.20, 0.25, 0.30]` oldest-to-newest, otherwise the
Kalman output is returned unmodified; in both cases the output is rounded to
2 decimals. -/
theorem smoothTail_weighted_average
    (hist : List (ℚ × ℚ)) (kh kv : ℚ) (hcap : hist.length ≤ 7) :
    (smoothTail hist kh kv).2 = (hist ++ [(kh, kv)]).drop (hist.length + 1 - 7)
    ∧ (smoothTail hist kh kv).2.length ≤ 7
    ∧ (∀ rest a b c d e, (smoothTail hist kh kv).2 = rest ++ [a, b, c, d, e] →
        (smoothTail hist kh kv).1 =
          (pyRound (1/10 * a.1 + 3/20 * b.1 + 1/5 * c.1 + 1/4 * d.1 + 3/10 * e.1) 2,
           pyRound (1/10 * a.2 + 3/20 * b.2 + 1/5 * c.2 + 1/4 * d.2 + 3/10 * e.2) 2))
    ∧ ((smoothTail hist kh kv).2.length < 5 →
        (smoothTail hist kh kv).1 = (pyRound kh 2, pyRound kv 2)) := by
  have hlen : (hist ++ [(kh, kv)]).length = hist.length + 1 := by simp
  have hpush : pushHistory hist (kh, kv) =
      (hist ++ [(kh, kv)]).drop (hist.length + 1 - 7) := by
    unfold pushHistory
    dsimp only
    rw [hlen]
    rcases Nat.lt_or_ge (hist.length + 1) 8 with hlt | hge
    · rw [if_neg (by omega)]
      have : hist.length + 1 - 7 = 0 := by omega
      rw [this, List.drop_zero]
    · rw [if_pos (by omega)]
      have : hist.length + 1 - 7 = 1 := by omega
      rw [this]
  have hplen : (pushHistory hist (kh, kv)).length ≤ 7 := by
    rw [hpush, List.length_drop, hlen]
    omega
  refine ⟨hpush, by unfold smoothTail; exact hplen, ?_, ?_⟩
  · intro rest a b c d e hdec
    have h5 : 5 ≤ (pushHistory hist (kh, kv)).length := by
      unfold smoothTail at hdec
      dsimp only at hdec
      rw [hdec]
      simp
    have hrecent :
        (pushHistory hist (kh, kv)).drop ((pushHistory hist (kh, kv)).length - 5) =
          [a, b, c, d, e] := by
      unfold smoothTail at hdec
      dsimp only at hdec
      rw [hdec]
      have : (rest ++ [a, b, c, d, e]).length - 5 = rest.length := by simp
      rw [this, List.drop_left]
    unfold smoothTail
    dsimp only
    rw [if_pos h5, hrecent]
    simp [npAverage_five]
  · intro hlt
    unfold smoothTail at hlt ⊢
    dsimp only at hlt ⊢
    rw [if_neg (by omega)]

theorem smoothTail_weighted_average_witness :
    ([((1 : ℚ), (2 : ℚ)), (1, 2), (1, 2), (1, 2), (3, 4), (5, 6)].length ≤ 7)
    ∧ (smoothTail [((1 : ℚ), (2 : ℚ)), (1, 2), (1, 2), (1, 2), (3, 4), (5, 6)] 7 8).1 =
        (pyRound (1/10 * 1 + 3/20 * 1 + 1/5 * 3 + 1/4 * 5 + 3/10 * 7) 2,
         pyRound (1/10 * 2 + 3/20 * 2 + 1/5 * 4 + 1/4 * 6 + 3/10 * 8) 2) := by
  refine ⟨by decide, ?_⟩
  have h := smoothTail_weighted_average
    [((1 : ℚ), (2 : ℚ)), (1, 2), (1, 2), (1, 2), (3, 4), (5, 6)] 7 8 (by decide)
  exact h.2.2.1 [(1, 2), (1, 2)] (1, 2) (1, 2) (3, 4) (5, 6) (7, 8) (by decide)

/-- A 2x2 covariance matrix. -/
structure Mat2 where
  a : ℚ
  b : ℚ
  c : ℚ
  d : ℚ
  deriving DecidableEq, Repr

/-- One axis of `cv2.KalmanFilter(2, 1)` as configured in
`_init_kalman_filters`: transition `[[1,1],[0,1]]`, measurement `[1,0]`,
process noise `0.03*I`, measurement noise `0.1`.  OpenCV zero-initializes
the state and covariance buffers. -/
structure KF where
  statePre : ℚ × ℚ
  statePost : ℚ × ℚ
  errCovPre : Mat2
  errCovPost : Mat2
  deriving DecidableEq, Repr

namespace KF

def init : KF := ⟨(0, 0), (0, 0), ⟨0, 0, 0, 0⟩, ⟨0, 0, 0, 0⟩⟩

/-- `KalmanFilter.predict()`: `statePre = F statePost`,
`errCovPre = F errCovPost Fᵀ + Q`, and both are copied into the `Post`
buffers (OpenCV semantics). -/
def predict (k : KF) : KF :=
  let pre := (k.statePost.1 + k.statePost.2, k.statePost.2)
  let P := k.errCovPost
  let Ppre : Mat2 :=
    ⟨P.a + P.b + P.c + P.d + 3/100, P.b + P.d, P.c + P.d, P.d + 3/100⟩
  ⟨pre, pre, Ppre, Ppre⟩

/-- `KalmanFilter.correct(z)` with `H = [1 0]`, `R = 0.1`:
gain `K = errCovPre Hᵀ (H errCovPre Hᵀ + R)⁻¹`, then
`statePost = statePre + K (z - H statePre)` and
`errCovPost = (I - K H) errCovPre`. -/
def correct (k : KF) (z : ℚ) : KF :=
  let S := k.errCovPre.a + 1/10
  let K1 := k.errCovPre.a / S
  let K2 := k.errCovPre.c / S
  let innov := z - k.statePre.1
  let P := k.errCovPre
  { k with
      statePost := (k.statePre.1 + K1 * innov, k.statePre.2 + K2 * innov)
      errCovPost := ⟨P.a - K1 * P.a, P.b - K1 * P.b, P.c - K2 * P.a, P.d - K2 * P.b⟩ }

end KF

/-- The mutable smoothing state of `DetectionService`: the two Kalman
filters, the `kalman_initialized` flag and the rolling `gaze_history`. -/
structure Smoother where
  kfH : KF
  kfV : KF
  initialized : Bool
  hist : List (ℚ × ℚ)
  deriving DecidableEq, Repr

/-- `_smooth_gaze_with_kalman`: on the very first call seed `statePre` from
the measurement and return it unfiltered; afterwards predict-then-correct
each axis and return the corrected position estimates. -/
def smoothKalman (s : Smoother) (h v : ℚ) : (ℚ × ℚ) × Smoother :=
  if s.initialized = false then
    ((h, v),
     { s with
        kfH := { s.kfH with statePre := (h, 0) }
        kfV := { s.kfV with statePre := (v, 0) }
        initialized := true })
  else
    let kh := (s.kfH.predict).correct h
    let kv := (s.kfV.predict).correct v
    ((kh.statePost.1, kv.statePost.1), { s with kfH := kh, kfV := kv })

/-- One full smoothing step of `detect_gaze` (Kalman filtering followed by
the rolling-history weighted average and 2-decimal rounding). -/
def Smoother.step (s : Smoother) (h v : ℚ) : (ℚ × ℚ) × Smoother :=
  let r := smoothKalman s h v
  let t := smoothTail r.2.hist r.1.1 r.1.2
  (t.1, { r.2 with hist := t.2 })

lemma smoothKalman_fixed (s : Smoother) (a b : ℚ)
    (hInit : s.initialized = true)
    (hH : s.kfH.statePost = (a, 0)) (hV : s.kfV.statePost = (b, 0)) :
    (smoothKalman s a b).1 = (a, b)
    ∧ (smoothKalman s a b).2.initialized = true
    ∧ (smoothKalman s a b).2.kfH.statePost = (a, 0)
    ∧ (smoothKalman s a b).2.kfV.statePost = (b, 0)
    ∧ (smoothKalman s a b).2.hist = s.hist := by
  unfold smoothKalman
  rw [hInit]
  simp [KF.predict, KF.correct, hH, hV, hInit]

lemma npAverage_const (q : ℚ) (xs : List ℚ)
    (hlen : xs.length = 5) (hconst : ∀ x ∈ xs, x = q) :
    npAverage gazeWeights xs = q := by
  rcases xs with _ | ⟨x1, _ | ⟨x2, _ | ⟨x3, _ | ⟨x4, _ | ⟨x5, rest⟩⟩⟩⟩⟩
  · simp at hlen
  · simp at hlen
  · simp at hlen
  · simp at hlen
  · simp at hlen
  · have hrest : rest = [] := by
      have : rest.length = 0 := by
        simp only [List.length_cons] at hlen
        omega
      exact List.length_eq_zero.mp this
    subst hrest
    have h1 : x1 = q := hconst _ (by simp)
    have h2 : x2 = q := hconst _ (by simp)
    have h3 : x3 = q := hconst _ (by simp)
    have h4 : x4 = q := hconst _ (by simp)
    have h5 : x5 = q := hconst _ (by simp)
    subst h1 h2 h3 h4 h5
    simp [npAverage, gazeWeights]
    ring

/-- On a history holding only the constant pair, one tail step returns the
rounded constant and the invariants are preserved. -/
lemma smoothTail_const (hist : List (ℚ × ℚ)) (a b : ℚ)
    (hlen : 5 ≤ hist.length) (hconst : ∀ p ∈ hist, p = (a, b)) :
    smoothTail hist a b = ((pyRound a 2, pyRound b 2), pushHistory hist (a, b))
    ∧ 5 ≤ (pushHistory hist (a, b)).length
    ∧ ∀ p ∈ pushHistory hist (a, b), p = (a, b) := by
  have hmem_push : ∀ p ∈ pushHistory hist (a, b), p = (a, b) := by
    intro p hp
    unfold pushHistory at hp
    dsimp only at hp
    rcases Decidable.em ((hist ++ [(a, b)]).length > 7) with hgt | hle
    · rw [if_pos hgt] at hp
      rcases List.mem_append.mp (List.mem_of_mem_drop hp) with h | h
      · exact hconst p h
      · simpa using h
    · rw [if_neg hle] at hp
      rcases List.mem_append.mp hp with h | h
      · exact hconst p h
      · simpa using h
  have hlen_push : 5 ≤ (pushHistory hist (a, b)).length := by
    unfold pushHistory
    dsimp only
    split
    · simp only [List.length_drop, List.length_append, List.length_cons,
        List.length_nil]
      omega
    · simp only [List.length_append, List.length_cons, List.length_nil]
      omega
  refine ⟨?_, hlen_push, hmem_push⟩
  unfold smoothTail
  dsimp only
  rw [if_pos hlen_push]
  have hrec_mem : ∀ p ∈ (pushHistory hist (a, b)).drop
      ((pushHistory hist (a, b)).length - 5), p = (a, b) :=
    fun p hp => hmem_push p (List.mem_of_mem_drop hp)
  have hrec_len : ((pushHistory hist (a, b)).drop
      ((pushHistory hist (a, b)).length - 5)).length = 5 := by
    rw [List.length_drop]
    omega
  have hfst : npAverage gazeWeights
      (((pushHistory hist (a, b)).drop
        ((pushHistory hist (a, b)).length - 5)).map Prod.fst) = a := by
    apply npAverage_const
    · rw [List.length_map, List.length_drop]
      omega
    · intro x hx
      obtain ⟨p, hp, rfl⟩ := List.mem_map.mp hx
      rw [hrec_mem p hp]
  have hsnd : npAverage gazeWeights
      (((pushHistory hist (a, b)).drop
        ((pushHistory hist (a, b)).length - 5)).map Prod.snd) = b := by
    apply npAverage_const
    · rw [List.length_map, List.length_drop]
      omega
    · intro x hx
      obtain ⟨p, hp, rfl⟩ := List.mem_map.mp hx
      rw [hrec_mem p hp]
  rw [hfst, hsnd]

/-- C9: once the smoother has converged on a constant input pair — the Kalman
position states sit at the input with zero velocity and the rolling history
(at least 5 entries) holds only that value — every further call returns the
same output, namely the 2-decimal rounding of the constant input, and the
converged configuration is preserved, so in particular the next call returns
the same output as the previous one. -/
theorem smoother_constant_stream_idempotent (s : Smoother) (a b : ℚ)
    (hInit : s.initialized = true)
    (hH : s.kfH.statePost = (a, 0)) (hV : s.kfV.statePost = (b, 0))
    (hlen : 5 ≤ s.hist.length) (hconst : ∀ p ∈ s.hist, p = (a, b)) :
    (s.step a b).1 = (pyRound a 2, pyRound b 2)
    ∧ ((s.step a b).2.initialized = true
        ∧ (s.step a b).2.kfH.statePost = (a, 0)
        ∧ (s.step a b).2.kfV.statePost = (b, 0)
        ∧ 5 ≤ (s.step a b).2.hist.length
        ∧ ∀ p ∈ (s.step a b).2.hist, p = (a, b))
    ∧ ((s.step a b).2.step a b).1 = (s.step a b).1 := by
  have key : ∀ s' : Smoother, s'.initialized = true → s'.kfH.statePost = (a, 0) →
      s'.kfV.statePost = (b, 0) → 5 ≤ s'.hist.length →
      (∀ p ∈ s'.hist, p = (a, b)) →
      (s'.step a b).1 = (pyRound a 2, pyRound b 2)
      ∧ (s'.step a b).2.initialized = true
      ∧ (s'.step a b).2.kfH.statePost = (a, 0)
      ∧ (s'.step a b).2.kfV.statePost = (b, 0)
      ∧ 5 ≤ (s'.step a b).2.hist.length
      ∧ ∀ p ∈ (s'.step a b).2.hist, p = (a, b) := by
    intro s' hInit' hH' hV' hlen' hconst'
    obtain ⟨hout, hinit2, hpostH, hpostV, hhist⟩ :=
      smoothKalman_fixed s' a b hInit' hH' hV'
    obtain ⟨htail, hlen_push, hmem_push⟩ := smoothTail_const s'.hist a b hlen' hconst'
    have h11 : (smoothKalman s' a b).1.1 = a := by rw [hout]
    have h12 : (smoothKalman s' a b).1.2 = b := by rw [hout]
    have hstep : s'.step a b =
        ((pyRound a 2, pyRound b 2),
          { (smoothKalman s' a b).2 with hist := pushHistory s'.hist (a, b) }) := by
      show ((smoothTail (smoothKalman s' a b).2.hist (smoothKalman s' a b).1.1
          (smoothKalman s' a b).1.2).1, _) = _
      rw [hhist, h11, h12, htail]
    rw [hstep]
    exact ⟨rfl, hinit2, hpostH, hpostV, hlen_push, hmem_push⟩
  obtain ⟨h1, h2, h3, h4, h5, h6⟩ := key s hInit hH hV hlen hconst
  refine ⟨h1, ⟨h2, h3, h4, h5, h6⟩, ?_⟩
  obtain ⟨h1', _⟩ := key (s.step a b).2 h2 h3 h4 h5 h6
  rw [h1', h1]

theorem smoother_constant_stream_idempotent_witness :
    (let s0 : Smoother :=
      ⟨⟨(2, 0), (2, 0), ⟨0, 0, 0, 0⟩, ⟨0, 0, 0, 0⟩⟩,
       ⟨(3, 0), (3, 0), ⟨0, 0, 0, 0⟩, ⟨0, 0, 0, 0⟩⟩,
       true, List.replicate 5 (2, 3)⟩
     s0.initialized = true ∧ 5 ≤ s0.hist.length ∧ (s0.step 2 3).1 = (2, 3)) := by
  refine ⟨rfl, by decide, ?_⟩
  have h := smoother_constant_stream_idempotent
    ⟨⟨(2, 0), (2, 0), ⟨0, 0, 0, 0⟩, ⟨0, 0, 0, 0⟩⟩,
     ⟨(3, 0), (3, 0), ⟨0, 0, 0, 0⟩, ⟨0, 0, 0, 0⟩⟩,
     true, List.replicate 5 (2, 3)⟩ 2 3 rfl rfl rfl (by decide) (by decide)
  rw [h.1]
  norm_num [pyRound, pyRoundInt]

/-! ## Head-pose Euler-angle extraction (`DetectionService.detect_head_pose`) -/

/-- A 3x3 rotation matrix as produced by `cv2.Rodrigues`. -/
structure Mat3 where
  m00 : ℚ
  m01 : ℚ
  m02 : ℚ
  m10 : ℚ
  m11 : ℚ
  m12 : ℚ
  m20 : ℚ
  m21 : ℚ
  m22 : ℚ
  deriving DecidableEq, Repr

/-- The Euler-angle extraction of `detect_head_pose` (source lines 260-270),
parametrized over the numeric `atan2` and `sqrt` routines (`np.arctan2`,
`np.sqrt`): compute `sy = sqrt(R00^2 + R10^2)`, test `sy < 1e-6`, and
extract `(pitch, yaw, roll)` in radians, with the alternate gimbal-lock
formulas in the singular branch.  The subsequent conversion to degrees and
2-decimal rounding is orthogonal to the extraction and not modelled here. -/
def eulerExtract (atan2 : ℚ → ℚ → ℚ) (sqrt : ℚ → ℚ) (R : Mat3) : ℚ × ℚ × ℚ :=
  let sy := sqrt (R.m00 ^ 2 + R.m10 ^ 2)
  let singular := decide (sy < 1/1000000)
  if !singular then
    (atan2 R.m21 R.m22, atan2 (-R.m20) sy, atan2 R.m10 R.m00)
  else
    (atan2 (-R.m12) R.m11, atan2 (-R.m20) sy, 0)

/-- C5: for every rotation matrix, the Euler angles are extracted as
`pitch = atan2(R21, R22)`, `yaw = atan2(-R20, sqrt(R00^2 + R10^2))`,
`roll = atan2(R10, R00)`; and whenever `sqrt(R00^2 + R10^2) < 1e-6`
(gimbal lock) the extraction instead uses `pitch = atan2(-R12, R11)`,
keeps `yaw` by the same formula, and sets `roll = 0`.  Stated for every
supplied `atan2`/`sqrt` routine, hence in particular for the numpy ones. -/
theorem euler_extraction_formulas (atan2 : ℚ → ℚ → ℚ) (sqrt : ℚ → ℚ) (R : Mat3) :
    eulerExtract atan2 sqrt R =
      if sqrt (R.m00 ^ 2 + R.m10 ^ 2) < 1/1000000 then
        (atan2 (-R.m12) R.m11,
         atan2 (-R.m20) (sqrt (R.m00 ^ 2 + R.m10 ^ 2)), 0)
      else
        (atan2 R.m21 R.m22,
         atan2 (-R.m20) (sqrt (R.m00 ^ 2 + R.m10 ^ 2)),
         atan2 R.m10 R.m00) := by
  unfold eulerExtract
  by_cases h : sqrt (R.m00 ^ 2 + R.m10 ^ 2) < 1/1000000
  · rw [if_pos h]
    simp only [decide_eq_true_eq]
    rw [if_neg (by simpa using h)]
  · rw [if_neg h]
    simp only [decide_eq_true_eq]
    rw [if_pos (by simpa using not_lt.mp h)]

/-! ## Report assembly (`VideoProcessingService._generate_new_format_report`) -/

/-- Python `str.replace` on character lists (all occurrences of a nonempty
pattern), driven by a fuel argument bounding the number of scan steps. -/
def replaceChars (pat rep : List Char) : ℕ → List Char → List Char
  | _, [] => []
  | 0, l => l
  | fuel + 1, ch :: rest =>
    if pat.isPrefixOf (ch :: rest) then
      rep ++ replaceChars pat rep fuel ((ch :: rest).drop pat.length)
    else
      ch :: replaceChars pat rep fuel rest

/-- Python `s.replace(pat, rep)` for a nonempty pattern. -/
def pyReplace (s pat rep : String) : String :=
  ⟨replaceChars pat.data rep.data s.data.length s.data⟩

/-- Python's `repr`/f-string rendering of the float value produced by
`round(x, 0)` (always integral, rendered with a trailing `.0`). -/
def pyFloatRepr (q : ℚ) : String :=
  if q.den = 1 then toString q.num ++ ".0" else toString q

/-- `VideoProcessingService._format_timestamp`: `M:SS` with truncating
(not rounding) seconds, zero-padded to 2 digits. -/
def formatTimestamp (s : ℚ) : String :=
  let minutes : ℤ := ⌊s / 60⌋
  let secs : ℤ := ⌊s⌋ - 60 * minutes
  toString minutes ++ ":" ++ (if secs < 10 then "0" ++ toString secs else toString secs)

/-- The Python name string of a category (the `'type'` field of an event). -/
def catName : ViolationCategory → String
  | .gaze_left => "gaze_left"
  | .gaze_right => "gaze_right"
  | .gaze_up => "gaze_up"
  | .gaze_down => "gaze_down"
  | .head_left => "head_left"
  | .head_right => "head_right"
  | .head_up => "head_up"
  | .head_down => "head_down"
  | .face_missing => "face_missing"
  | .multiple_faces => "multiple_faces"

/-- One occurrence entry of a gesture group. -/
structure Occ where
  timestamp : String
  duration : ℚ
  direction : String
  intensity : String
  deriving DecidableEq, Repr

/-- One gesture group of the report. -/
structure GestureGroup where
  name : String
  occurrence : List Occ
  deriving DecidableEq, Repr

/-- Sort key used by `events.sort(key=lambda x: x['timestamp'])`. -/
def evLE (a b : VEvent) : Prop := a.timestamp ≤ b.timestamp

instance : DecidableRel evLE :=
  fun a b => inferInstanceAs (Decidable (a.timestamp ≤ b.timestamp))

instance : IsTotal VEvent evLE :=
  ⟨fun a b => le_total a.timestamp b.timestamp⟩

instance : IsTrans VEvent evLE :=
  ⟨fun _ _ _ hab hbc => le_trans hab hbc⟩

/-- The head-movement categories filtered by the report builder. -/
def headCats : List ViolationCategory := [.head_left, .head_right, .head_up, .head_down]

/-- The eye-movement categories filtered by the report builder. -/
def gazeCats : List ViolationCategory := [.gaze_left, .gaze_right, .gaze_up, .gaze_down]

/-- The `gestures` list assembled by `_generate_new_format_report`: partition
the flat event list into the four fixed groups, sort each group's events
ascending by start timestamp (Python's stable sort, modelled by insertion
sort), render the occurrence dicts, and omit groups with no occurrences. -/
def reportGestures (evs : List VEvent) : List GestureGroup :=
  let headOcc := (List.insertionSort evLE
      (evs.filter (fun e => decide (e.vtype ∈ headCats)))).map
    (fun e => ({ timestamp := formatTimestamp e.timestamp
                 duration := pyRound e.duration 1
                 direction := pyReplace (catName e.vtype) "head_" ""
                 intensity := pyFloatRepr (pyRound e.intensity 0) ++ " degrees" } : Occ))
  let gazeOcc := (List.insertionSort evLE
      (evs.filter (fun e => decide (e.vtype ∈ gazeCats)))).map
    (fun e => ({ timestamp := formatTimestamp e.timestamp
                 duration := pyRound e.duration 1
                 direction := pyReplace (catName e.vtype) "gaze_" ""
                 intensity := pyFloatRepr (pyRound e.intensity 0) ++ " degrees" } : Occ))
  let fmOcc := (List.insertionSort evLE
      (evs.filter (fun e => decide (e.vtype = .face_missing)))).map
    (fun e => ({ timestamp := formatTimestamp e.timestamp
                 duration := pyRound e.duration 1
                 direction := ""
                 intensity := "" } : Occ))
  let mfOcc := (List.insertionSort evLE
      (evs.filter (fun e => decide (e.vtype = .multiple_faces)))).map
    (fun e => ({ timestamp := formatTimestamp e.timestamp
                 duration := pyRound e.duration 1
                 direction := ""
                 intensity := "" } : Occ))
  (if headOcc = [] then [] else [⟨"head_movement", headOcc⟩])
    ++ (if gazeOcc = [] then [] else [⟨"Eye_movement", gazeOcc⟩])
    ++ (if fmOcc = [] then [] else [⟨"face_missing", fmOcc⟩])
    ++ (if mfOcc = [] then [] else [⟨"multiple_faces", mfOcc⟩])

lemma group_block_cases {name : String} {occ : List Occ} {g : GestureGroup}
    (h : g ∈ (if occ = [] then ([] : List GestureGroup) else [⟨name, occ⟩])) :
    g = ⟨name, occ⟩ ∧ occ ≠ [] := by
  by_cases hX : occ = []
  · rw [if_pos hX] at h
    exact absurd h (List.not_mem_nil g)
  · rw [if_neg hX] at h
    exact ⟨List.mem_singleton.mp h, hX⟩

/-- C8: the report builder never emits a `GestureGroup` with an empty
occurrence sequence (empty groups are omitted entirely), and every emitted
group's occurrences are the rendering, in order, of an event list sorted
ascending by start timestamp. -/
theorem report_groups_nonempty_and_sorted (evs : List VEvent) (g : GestureGroup)
    (hg : g ∈ reportGestures evs) :
    g.occurrence ≠ []
    ∧ ∃ (l : List VEvent) (f : VEvent → Occ),
        List.Sorted evLE l ∧ g.occurrence = l.map f := by
  unfold reportGestures at hg
  dsimp only at hg
  rcases List.mem_append.mp hg with h | h
  · rcases List.mem_append.mp h with h | h
    · rcases List.mem_append.mp h with h | h
      · obtain ⟨rfl, hne⟩ := group_block_cases h
        exact ⟨by simpa using hne, _, _, List.sorted_insertionSort evLE _, rfl⟩
      · obtain ⟨rfl, hne⟩ := group_block_cases h
        exact ⟨by simpa using hne, _, _, List.sorted_insertionSort evLE _, rfl⟩
    · obtain ⟨rfl, hne⟩ := group_block_cases h
      exact ⟨by simpa using hne, _, _, List.sorted_insertionSort evLE _, rfl⟩
  · obtain ⟨rfl, hne⟩ := group_block_cases h
    exact ⟨by simpa using hne, _, _, List.sorted_insertionSort evLE _, rfl⟩

theorem report_groups_nonempty_and_sorted_witness :
    ((⟨"face_missing", [⟨formatTimestamp 0, pyRound 1 1, "", ""⟩]⟩ : GestureGroup)
        ∈ reportGestures [⟨.face_missing, 0, 1, 0⟩])
    ∧ (⟨"face_missing", [⟨formatTimestamp 0, pyRound 1 1, "", ""⟩]⟩ :
        GestureGroup).occurrence ≠ [] := by
  have hrep : reportGestures [⟨.face_missing, 0, 1, 0⟩] =
      [⟨"face_missing", [⟨formatTimestamp 0, pyRound 1 1, "", ""⟩]⟩] := rfl
  have hmem : (⟨"face_missing", [⟨formatTimestamp 0, pyRound 1 1, "", ""⟩]⟩ :
      GestureGroup) ∈ reportGestures [⟨.face_missing, 0, 1, 0⟩] := by
    rw [hrep]
    exact List.mem_singleton.mpr rfl
  exact ⟨hmem,
    (report_groups_nonempty_and_sorted [⟨.face_missing, 0, 1, 0⟩] _ hmem).1⟩

/-- The direction label of a category after prefix stripping ("" for the
presence categories). -/
def specDir : ViolationCategory → String
  | .gaze_left | .head_left => "left"
  | .gaze_right | .head_right => "right"
  | .gaze_up | .head_up => "up"
  | .gaze_down | .head_down => "down"
  | .face_missing | .multiple_faces => ""

/-- The intensity string of an occurrence: the `round(x, 0)` float rendering
followed by " degrees" for angle categories, "" for presence categories. -/
def specIntensity (c : ViolationCategory) (q : ℚ) : String :=
  match c with
  | .face_missing | .multiple_faces => ""
  | _ => pyFloatRepr (pyRound q 0) ++ " degrees"

/-- C6 counterexample: on a single `gaze_right` event of intensity 8.25 the
report builder emits a group named "Eye_movement" — not a member of the
claimed name set {head_movement, eye_movement, face_missing, multiple_faces}
— and renders the intensity as "8.0 degrees" (Python's `round(x, 0)` yields
a float, printed with a trailing .0), not "8 degrees". -/
theorem report_eye_group_name_counterexample :
    (reportGestures [⟨.gaze_right, 61, 1/5, 33/4⟩]).map (fun g => g.name) =
      ["Eye_movement"]
    ∧ "Eye_movement" ∉
        (["head_movement", "eye_movement", "face_missing", "multiple_faces"] :
          List String)
    ∧ (∃ g ∈ reportGestures [⟨.gaze_right, 61, 1/5, 33/4⟩],
        ∃ o ∈ g.occurrence, o.intensity = "8.0 degrees" ∧ o.intensity ≠ "8 degrees") := by
  have hround : pyRound ((33 : ℚ)/4) 0 = 8 := by
    norm_num [pyRound, pyRoundInt]
  have hrep : reportGestures [⟨.gaze_right, 61, 1/5, 33/4⟩] =
      [⟨"Eye_movement",
        [⟨formatTimestamp 61, pyRound (1/5) 1, pyReplace (catName .gaze_right) "gaze_" "",
          pyFloatRepr (pyRound (33/4) 0) ++ " degrees"⟩]⟩] := rfl
  have hint : pyFloatRepr (pyRound ((33 : ℚ)/4) 0) ++ " degrees" = "8.0 degrees" := by
    rw [hround]
    decide
  refine ⟨by rw [hrep]; rfl, by decide, ?_⟩
  rw [hrep]
  refine ⟨_, List.mem_singleton.mpr rfl, _, List.mem_singleton.mpr rfl, ?_, ?_⟩
  · exact hint
  · rw [hint]
    decide

/-- C6 (amended): every emitted `GestureGroup` has a name drawn from exactly
{head_movement, Eye_movement, face_missing, multiple_faces} (the eye group's
name is capitalized "Eye_movement" in the source, not "eye_movement"); for
head/eye groups each occurrence's direction is the event's category name with
its prefix stripped (`head_left` → `left`) and its intensity is the float
rendering of `round(intensity, 0)` followed by " degrees" (e.g.
"8.0 degrees"); for the two presence groups direction and intensity are
empty strings. -/
lemma headDir_eq (c : ViolationCategory) (hc : c ∈ headCats) :
    pyReplace (catName c) "head_" "" = specDir c := by
  fin_cases hc <;> decide

lemma gazeDir_eq (c : ViolationCategory) (hc : c ∈ gazeCats) :
    pyReplace (catName c) "gaze_" "" = specDir c := by
  fin_cases hc <;> decide

lemma headIntensity_eq (c : ViolationCategory) (q : ℚ) (hc : c ∈ headCats) :
    pyFloatRepr (pyRound q 0) ++ " degrees" = specIntensity c q := by
  fin_cases hc <;> rfl

lemma gazeIntensity_eq (c : ViolationCategory) (q : ℚ) (hc : c ∈ gazeCats) :
    pyFloatRepr (pyRound q 0) ++ " degrees" = specIntensity c q := by
  fin_cases hc <;> rfl

theorem report_group_names_directions_intensities (evs : List VEvent)
    (g : GestureGroup) (hg : g ∈ reportGestures evs) :
    g.name ∈ (["head_movement", "Eye_movement", "face_missing", "multiple_faces"] :
        List String)
    ∧ ∀ o ∈ g.occurrence, ∃ e ∈ evs,
        o.direction = specDir e.vtype ∧ o.intensity = specIntensity e.vtype e.intensity := by
  unfold reportGestures at hg
  dsimp only at hg
  rcases List.mem_append.mp hg with h | h
  · rcases List.mem_append.mp h with h | h
    · rcases List.mem_append.mp h with h | h
      · obtain ⟨rfl, _⟩ := group_block_cases h
        refine ⟨by simp, ?_⟩
        intro o ho
        obtain ⟨e, he, rfl⟩ := List.mem_map.mp ho
        rw [List.mem_insertionSort] at he
        have hcat : e.vtype ∈ headCats := by
          simpa using List.of_mem_filter he
        exact ⟨e, List.mem_of_mem_filter he, headDir_eq e.vtype hcat,
          headIntensity_eq e.vtype e.intensity hcat⟩
      · obtain ⟨rfl, _⟩ := group_block_cases h
        refine ⟨by simp, ?_⟩
        intro o ho
        obtain ⟨e, he, rfl⟩ := List.mem_map.mp ho
        rw [List.mem_insertionSort] at he
        have hcat : e.vtype ∈ gazeCats := by
          simpa using List.of_mem_filter he
        exact ⟨e, List.mem_of_mem_filter he, gazeDir_eq e.vtype hcat,
          gazeIntensity_eq e.vtype e.intensity hcat⟩
    · obtain ⟨rfl, _⟩ := group_block_cases h
      refine ⟨by simp, ?_⟩
      intro o ho
      obtain ⟨e, he, rfl⟩ := List.mem_map.mp ho
      rw [List.mem_insertionSort] at he
      have hcat : e.vtype = .face_missing := by
        simpa using List.of_mem_filter he
      exact ⟨e, List.mem_of_mem_filter he, by rw [hcat]; rfl, by rw [hcat]; rfl⟩
  · obtain ⟨rfl, _⟩ := group_block_cases h
    refine ⟨by simp, ?_⟩
    intro o ho
    obtain ⟨e, he, rfl⟩ := List.mem_map.mp ho
    rw [List.mem_insertionSort] at he
    have hcat : e.vtype = .multiple_faces := by
      simpa using List.of_mem_filter he
    exact ⟨e, List.mem_of_mem_filter he, by rw [hcat]; rfl, by rw [hcat]; rfl⟩

theorem report_group_names_directions_intensities_witness :
    ((⟨"Eye_movement",
        [⟨formatTimestamp 61, pyRound (1/5) 1, pyReplace (catName .gaze_right) "gaze_" "",
          pyFloatRepr (pyRound (33/4) 0) ++ " degrees"⟩]⟩ : GestureGroup)
      ∈ reportGestures [⟨.gaze_right, 61, 1/5, 33/4⟩])
    ∧ (⟨"Eye_movement",
        [⟨formatTimestamp 61, pyRound (1/5) 1, pyReplace (catName .gaze_right) "gaze_" "",
          pyFloatRepr (pyRound (33/4) 0) ++ " degrees"⟩]⟩ : GestureGroup).name ∈
        (["head_movement", "Eye_movement", "face_missing", "multiple_faces"] :
          List String) := by
  have hmem : (⟨"Eye_movement",
      [⟨formatTimestamp 61, pyRound (1/5) 1, pyReplace (catName .gaze_right) "gaze_" "",
        pyFloatRepr (pyRound (33/4) 0) ++ " degrees"⟩]⟩ : GestureGroup)
      ∈ reportGestures [⟨.gaze_right, 61, 1/5, 33/4⟩] := by
    have hrep : reportGestures [⟨.gaze_right, 61, 1/5, 33/4⟩] =
        [⟨"Eye_movement",
          [⟨formatTimestamp 61, pyRound (1/5) 1, pyReplace (catName .gaze_right) "gaze_" "",
            pyFloatRepr (pyRound (33/4) 0) ++ " degrees"⟩]⟩] := rfl
    rw [hrep]
    exact List.mem_singleton.mpr rfl
  exact ⟨hmem,
    (report_group_names_directions_intensities [⟨.gaze_right, 61, 1/5, 33/4⟩] _ hmem).1⟩

/-! ## ViolationEvent field provenance (duration rounding, intensity) -/

lemma mem_eventsFor {t : ViolationTracker} {c : ViolationCategory} {e : VEvent} :
    e ∈ eventsFor t c ↔ e ∈ t.events ∧ e.vtype = c := by
  simp [eventsFor]

lemma mem_eventsFor_append_if {t : ViolationTracker} {c : ViolationCategory}
    {e : VEvent} {P : Prop} [Decidable P]
    (he : e ∈ eventsFor t c ++
      (if P then [ViolationTracker.mkEvent c (t.states c)] else [])) :
    e ∈ eventsFor t c ∨ e = ViolationTracker.mkEvent c (t.states c) := by
  rcases List.mem_append.mp he with h | h
  · exact Or.inl h
  · split at h
    · exact Or.inr (List.mem_singleton.mp h)
    · exact absurd h (List.not_mem_nil e)

lemma finalize_states_eq (t : ViolationTracker) (c : ViolationCategory) :
    t.finalize.states c =
      if (t.states c).active = true
      then ⟨false, (t.states c).start_time, (t.states c).duration,
        (t.states c).max_intensity⟩
      else t.states c := by
  cases c <;>
    simp [ViolationTracker.finalize, ViolationCategory.all, finStep_states]

lemma specStep_maxI_zero (s : ViolState) (cond : Bool) (ts : ℚ)
    (h : s.max_intensity = 0) : (specStep s cond ts 0).max_intensity = 0 := by
  unfold specStep
  cases cond <;> rcases hA : s.active <;> simp [hA, h]

/-- The presence categories never accumulate a nonzero intensity: their
running maxima are 0 and every recorded presence event has intensity 0. -/
def presenceIntensityZero (t : ViolationTracker) : Prop :=
  (t.states .face_missing).max_intensity = 0
  ∧ (t.states .multiple_faces).max_intensity = 0
  ∧ ∀ e ∈ t.events,
      (e.vtype = .face_missing ∨ e.vtype = .multiple_faces) → e.intensity = 0

/-- Concrete frame inputs and thresholds used in counterexamples. -/
def ceInp1 : FrameInput := ⟨some (33/4), none, none, none, 1⟩

def ceInp2 : FrameInput := ⟨some 0, none, none, none, 1⟩

def ceTh : Thresholds := ⟨5, 5, 10, 10⟩

/-- A `gaze_right` span held above threshold from t=0 to t=0.2 s, released
at t=0.4 s. -/
def ceRun : ViolationTracker :=
  ((ViolationTracker.init.update 0 ceInp1 ceTh).update (1/5) ceInp1
    ceTh).update (2/5) ceInp2 ceTh

/-- C7 counterexample: the tracker stores the event's intensity unrounded.
Sustaining `gaze_h = 8.25` for 0.2 s yields a recorded `gaze_right` event
with intensity 33/4 = 8.25, while rounding to whole degrees would give 8;
the event also shows that presence-category events are not the only ones at
stake: the stored value is the raw running maximum. -/
theorem event_intensity_unrounded_counterexample :
    eventsFor ceRun .gaze_right = [⟨.gaze_right, 0, 1/5, 33/4⟩]
    ∧ pyRound ((33 : ℚ)/4) 0 = 8
    ∧ ((33 : ℚ)/4) ≠ 8 := by
  have habs : |(33 : ℚ)/4| = 33/4 := abs_of_pos (by norm_num)
  have hc1 : condFor .gaze_right ceInp1 ceTh = true := by
    simp [condFor, ceInp1, ceTh]
    norm_num
  have hc2 : condFor .gaze_right ceInp2 ceTh = false := by
    simp [condFor, ceInp2, ceTh]
  have hi1 : intensityFor .gaze_right ceInp1 = 33/4 := by
    simp [intensityFor, ceInp1, habs]
  have hs0 : ViolationTracker.init.states .gaze_right = ⟨false, 0, 0, 0⟩ := rfl
  have hs1 : (ViolationTracker.init.update 0 ceInp1 ceTh).states .gaze_right =
      ⟨true, 0, 0, 33/4⟩ := by
    rw [update_states_eq, hc1, hs0, hi1]
    rfl
  have hs2 : ((ViolationTracker.init.update 0 ceInp1 ceTh).update (1/5) ceInp1
      ceTh).states .gaze_right = ⟨true, 0, 1/5, 33/4⟩ := by
    rw [update_states_eq, hc1, hs1, hi1]
    simp [specStep]
  have he0 : eventsFor ViolationTracker.init .gaze_right = [] := rfl
  have he1 : eventsFor (ViolationTracker.init.update 0 ceInp1 ceTh) .gaze_right = [] := by
    rw [update_eventsFor_eq, hs0, he0]
    simp
  have he2 : eventsFor ((ViolationTracker.init.update 0 ceInp1 ceTh).update (1/5)
      ceInp1 ceTh) .gaze_right = [] := by
    rw [update_eventsFor_eq, hs1, he1, hc1]
    simp
  have he3 : eventsFor ceRun .gaze_right =
      [ViolationTracker.mkEvent .gaze_right ⟨true, 0, 1/5, 33/4⟩] := by
    unfold ceRun
    rw [update_eventsFor_eq, hs2, he2, hc2]
    rw [if_pos ⟨rfl, rfl, by norm_num⟩]
    simp
  refine ⟨?_, by norm_num [pyRound, pyRoundInt], by norm_num⟩
  rw [he3]
  have hdur : pyRound ((1 : ℚ)/5) 1 = 1/5 := by
    norm_num [pyRound, pyRoundInt]
  simp only [ViolationTracker.mkEvent]
  rw [hdur]

/-- C7 (amended): every `ViolationEvent` appended by the end-violation
transition carries its duration rounded to 1 decimal and its intensity equal
to the span's running peak intensity, unrounded (whole-degree rounding
happens only in the report layer); and the presence categories
(`face_missing`, `multiple_faces`) always feed intensity 0, so their events
carry intensity 0.0 rather than no intensity: the zero-intensity invariant
holds initially and is preserved by `update` and `finalize`. -/
theorem event_duration_rounded_intensity_peak
    (t : ViolationTracker) (ts : ℚ) (inp : FrameInput) (th : Thresholds)
    (c : ViolationCategory) (e : VEvent)
    (hpres : presenceIntensityZero t)
    (he : e ∈ (t.endViolation c).events) :
    (e ∈ t.events ∨
      (e.duration = pyRound (t.states c).duration 1
        ∧ e.intensity = (t.states c).max_intensity))
    ∧ presenceIntensityZero ViolationTracker.init
    ∧ presenceIntensityZero (t.update ts inp th)
    ∧ presenceIntensityZero t.finalize := by
  refine ⟨?_, ?_, ?_, ?_⟩
  · rw [endViolation_events] at he
    rcases List.mem_append.mp he with h | h
    · exact Or.inl h
    · split at h
      · rw [List.mem_singleton.mp h]
        exact Or.inr ⟨rfl, rfl⟩
      · exact absurd h (List.not_mem_nil e)
  · refine ⟨rfl, rfl, ?_⟩
    intro e' he'
    exact absurd he' (List.not_mem_nil e')
  · refine ⟨?_, ?_, ?_⟩
    · rw [update_states_eq]
      exact specStep_maxI_zero _ _ _ hpres.1
    · rw [update_states_eq]
      exact specStep_maxI_zero _ _ _ hpres.2.1
    · intro e' he' hvt
      rcases hvt with hfm | hmf
      · have h' := mem_eventsFor.mpr ⟨he', hfm⟩
        rw [update_eventsFor_eq] at h'
        rcases mem_eventsFor_append_if h' with hold | hnew
        · exact hpres.2.2 e' (mem_eventsFor.mp hold).1 (Or.inl hfm)
        · rw [hnew]
          exact hpres.1
      · have h' := mem_eventsFor.mpr ⟨he', hmf⟩
        rw [update_eventsFor_eq] at h'
        rcases mem_eventsFor_append_if h' with hold | hnew
        · exact hpres.2.2 e' (mem_eventsFor.mp hold).1 (Or.inr hmf)
        · rw [hnew]
          exact hpres.2.1
  · refine ⟨?_, ?_, ?_⟩
    · rw [finalize_states_eq]
      split
      · exact hpres.1
      · exact hpres.1
    · rw [finalize_states_eq]
      split
      · exact hpres.2.1
      · exact hpres.2.1
    · intro e' he' hvt
      rcases hvt with hfm | hmf
      · have h' := mem_eventsFor.mpr ⟨he', hfm⟩
        rw [finalize_eventsFor_eq] at h'
        rcases mem_eventsFor_append_if h' with hold | hnew
        · exact hpres.2.2 e' (mem_eventsFor.mp hold).1 (Or.inl hfm)
        · rw [hnew]
          exact hpres.1
      · have h' := mem_eventsFor.mpr ⟨he', hmf⟩
        rw [finalize_eventsFor_eq] at h'
        rcases mem_eventsFor_append_if h' with hold | hnew
        · exact hpres.2.2 e' (mem_eventsFor.mp hold).1 (Or.inr hmf)
        · rw [hnew]
          exact hpres.2.1

/-- A small tracker state with one active `gaze_right` span of duration
0.2 s and peak intensity 8.25. -/
def presTracker : ViolationTracker :=
  { counts := fun _ => 0
    timestamps := fun _ => []
    states := setCat (fun _ => ⟨false, 0, 0, 0⟩) .gaze_right ⟨true, 0, 1/5, 33/4⟩
    max_intensities := fun _ => 0
    events := [] }

theorem event_duration_rounded_intensity_peak_witness :
    presenceIntensityZero presTracker
    ∧ (ViolationTracker.mkEvent .gaze_right (presTracker.states .gaze_right)
          ∈ presTracker.events
        ∨ ((ViolationTracker.mkEvent .gaze_right
              (presTracker.states .gaze_right)).duration =
            pyRound (presTracker.states .gaze_right).duration 1
          ∧ (ViolationTracker.mkEvent .gaze_right
              (presTracker.states .gaze_right)).intensity =
            (presTracker.states .gaze_right).max_intensity))
    ∧ presenceIntensityZero (presTracker.update 0 ceInp1 ceTh) := by
  have hpres : presenceIntensityZero presTracker := by
    refine ⟨rfl, rfl, ?_⟩
    intro e' he'
    exact absurd he' (List.not_mem_nil e')
  have he : ViolationTracker.mkEvent .gaze_right (presTracker.states .gaze_right)
      ∈ (presTracker.endViolation .gaze_right).events := by
    rw [endViolation_events]
    rw [if_pos ⟨rfl, show (3 : ℚ)/20 ≤ 1/5 by norm_num⟩]
    simp
  have h := event_duration_rounded_intensity_peak presTracker 0 ceInp1 ceTh
    .gaze_right (ViolationTracker.mkEvent .gaze_right (presTracker.states .gaze_right))
    hpres he
  exact ⟨hpres, h.1, h.2.2.1⟩
